import Mathlib

/-
Verification development for the module-graph tree-shaking core:
a shallow embedding of Module.ts (export-name resolution, relevant
dependencies, inclusion), LocalVariable.ts and SequenceExpression.ts,
with theorems about the specified behaviour.
-/

namespace Rollup

/-- The tri-state moduleSideEffects option: true, false, or the
string value no-treeshake. -/
inductive ModSideEffects where
  | sideEffectsTrue
  | sideEffectsFalse
  | noTreeshake
deriving DecidableEq

/-- Truthiness of the moduleSideEffects value as used by
addRelevantSideEffectDependencies (false is falsy, the rest truthy). -/
def ModSideEffects.truthy : ModSideEffects → Bool
  | .sideEffectsFalse => false
  | _ => true

/-- The syntheticNamedExports option: false, true, or a string naming
the fallback export. -/
inductive SynNamedExports where
  | noSyn
  | synTrue
  | synNamed (name : String)
deriving DecidableEq

/-- Truthiness of the syntheticNamedExports value. -/
def SynNamedExports.truthy : SynNamedExports → Bool
  | .noSyn => false
  | _ => true

/-- Strict string equality between a syntheticNamedExports value and a
name, as in the check module.info.syntheticNamedExports === name. -/
def SynNamedExports.eqName (s : SynNamedExports) (name : String) : Bool :=
  match s with
  | .synNamed n => n == name
  | _ => false

/-- The variables the resolver can produce.  Identity of a variable in
the running system is determined by its owning module and name (each
kind is cached per module and name), so structural equality models
object identity. -/
inductive Variable where
  | localVar (moduleId name : String)
  | namespaceVar (moduleId : String)
  | externalVar (moduleId name : String)
  | syntheticVar (moduleId name : String) (base : Variable)
  | shimVar (moduleId : String)
deriving DecidableEq

/-- Corresponds to the check variable instanceof SyntheticNamedExportVariable. -/
def Variable.isSynthetic : Variable → Bool
  | .syntheticVar _ _ _ => true
  | _ => false

/-- The owning module of a variable (variable.module.id); external
variables are owned by their external module. -/
def Variable.moduleOf : Variable → String
  | .localVar m _ => m
  | .namespaceVar m => m
  | .externalVar m _ => m
  | .syntheticVar m _ _ => m
  | .shimVar m => m

/-- Modelled from the spec: SyntheticNamedExportVariable.getBaseVariable
returns the base of the fallback namespace, chaining through nested
synthetic variables. -/
def Variable.getBaseVariable : Variable → Variable
  | .syntheticVar _ _ b => b.getBaseVariable
  | v => v

/-- An entry of the exports table: either the missing-export shim
marker or a direct export naming a local binding. -/
inductive ExportDescription where
  | missingExportShim
  | explicitLocal (localName : String)
deriving DecidableEq

/-- An entry of reexportDescriptions after linkImports: the local name
in the source module and the resolved target module id. -/
structure ReexportDescription where
  localName : String
  moduleId : String
deriving DecidableEq

/-- An entry of importDescriptions after linkImports: the imported
name (default, *, or a named import) and the resolved module id. -/
structure ImportDescription where
  moduleId : String
  name : String
deriving DecidableEq

/-- A top-level statement of the program, described by the two facts
Module.hasEffects consults: its included flag and whether it has
effects under a fresh effects context. -/
structure StatementInfo where
  included : Bool
  hasEffects : Bool
deriving DecidableEq

/-- The per-module state the embedded operations read. -/
structure ModuleData where
  exports : List (String × ExportDescription)
  reexportDescriptions : List (String × ReexportDescription)
  exportAllModules : List String
  syntheticNamedExports : SynNamedExports
  moduleSideEffects : ModSideEffects
  scopeVariables : List String
  importDescriptions : List (String × ImportDescription)
  dependencies : List String
  imports : List Variable
  sideEffectDependenciesByVariable : List (Variable × List String)
  isEntry : Bool
  includedDynamicImporters : List String
  namespaceIncluded : Bool
  implicitlyLoadedAfter : List String
  astIncluded : Bool
  body : List StatementInfo
deriving DecidableEq

/-- A module of the graph: an internal Module or an ExternalModule
(which only carries its moduleSideEffects option). -/
inductive ModuleEntry where
  | internal (md : ModuleData)
  | externalMod (sideEffects : ModSideEffects)
deriving DecidableEq

def ModuleEntry.isExternal : ModuleEntry → Bool
  | .externalMod _ => true
  | _ => false

/-- info.syntheticNamedExports of a graph module; external modules
never carry a string-valued syntheticNamedExports. -/
def ModuleEntry.synNamed : ModuleEntry → SynNamedExports
  | .internal md => md.syntheticNamedExports
  | .externalMod _ => .noSyn

def ModuleEntry.sideEffects : ModuleEntry → ModSideEffects
  | .internal md => md.moduleSideEffects
  | .externalMod se => se

def ModuleEntry.deps : ModuleEntry → List String
  | .internal md => md.dependencies
  | .externalMod _ => []

/-- The graph-wide options the embedded operations read. -/
structure GraphOptions where
  treeshake : Bool
  shimMissingExports : Bool
deriving DecidableEq

/-- The module graph: modulesById plus options. -/
structure Graph where
  modulesById : List (String × ModuleEntry)
  options : GraphOptions

/-- Association-list lookup, modelling Map.get. -/
def alookup {κ α : Type} [DecidableEq κ] : List (κ × α) → κ → Option α
  | [], _ => none
  | (k, v) :: t, key => if k = key then some v else alookup t key

/-- JS Set.add: appends if absent, keeping insertion order. -/
def listSetAdd {α : Type} [DecidableEq α] (l : List α) (a : α) : List α :=
  if a ∈ l then l else l ++ [a]

/-- JS Map.set: replaces the value of an existing key in place,
otherwise appends, keeping insertion order. -/
def mapSet {α β : Type} [DecidableEq α] : List (α × β) → α → β → List (α × β)
  | [], k, v => [(k, v)]
  | (k', v') :: t, k, v =>
    if k' = k then (k', v) :: t else (k', v') :: mapSet t k v

/-- The searchedNamesAndModules map, flattened to the set of
(name, module id) pairs it records; only membership and insertion are
ever observed. -/
abbrev SearchedMap := List (String × String)

/-- Whether the pair (name, module) is recorded in the map. -/
def searchedHas : SearchedMap → String → String → Bool
  | [], _, _ => false
  | (n', m') :: t, n, m => (n' == n && m' == m) || searchedHas t n m

/-- Warnings emitted through onwarn during resolution. -/
inductive Warning where
  | shimmedExport (exporter name : String)
  | namespaceConflict (name reexportingModule : String) (sources : List String)
  | ambiguousExternalNamespaces (name reexportingModule : String)
      (usedModule : Option String) (sources : List (Option String))
deriving DecidableEq

/-- Fatal errors raised during resolution; missingModule and outOfFuel
are artefacts of the embedding (a lookup of a module object that the
running system holds by reference, and fuel exhaustion of the bounded
recursion). -/
inductive RErr where
  | circularReexport (name moduleId : String)
  | missingExport (binding importingModule importedModule : String)
  | syntheticNamedExportsNeedNamespaceExport (moduleId : String)
  | missingModule (moduleId : String)
  | outOfFuel
deriving DecidableEq

/-- Result of a resolver call: the warnings emitted (in order), the
searchedNamesAndModules map as the caller observes it afterwards
(none when the caller never materialised one), and the value or the
raised error. -/
structure RRes (α : Type) where
  ws : List Warning
  searched : Option SearchedMap
  val : Except RErr α

/-- The tie-break after the export * probe loop, as in the source: one
distinct internal declaration wins; several emit NAMESPACE_CONFLICT
and resolve to null; else the first external wins with the
indirectExternal flag, warning AMBIGUOUS_EXTERNAL_NAMESPACES when
there are several; else the synthetic, if any. -/
def namespaceReexportTieBreak (mId name : String) (syn : Option Variable)
    (ints : List (Variable × String)) (exts : List (Option Variable)) :
    List Warning × (Option Variable × Bool) :=
  match ints with
  | (v, _) :: irest =>
    if irest.isEmpty then ([], (some v, false))
    else
      ([.namespaceConflict name mId (ints.map (fun p => p.2))], (none, false))
  | [] =>
    match exts with
    | used :: erest =>
      if erest.isEmpty then ([], (used, true))
      else
        ([.ambiguousExternalNamespaces name mId (used.map Variable.moduleOf)
            (exts.map (fun d => d.map Variable.moduleOf))], (used, true))
    | [] =>
      match syn with
      | some s => ([], (some s, false))
      | none => ([], (none, false))

/-- name[0] === the star character. -/
def firstCharIsStar (s : String) : Bool :=
  match s.data with
  | [] => false
  | c :: _ => c == '*'

/-- name.slice(1). -/
def strDrop1 (s : String) : String := ⟨s.data.drop 1⟩

mutual

/-- getVariableForExportNameRecursive of Module.ts: consults the
searchedNamesAndModules map; a re-entered (name, module) pair returns
null during an export * probe and raises CIRCULAR_REEXPORT otherwise;
a fresh pair is recorded and the target module is queried.  When the
caller passed no map, the fresh map made here stays invisible to it. -/
def getVariableForExportNameRecursive (g : Graph) (fuel : Nat)
    (targetId name : String) (isExportAllSearch : Bool)
    (searched : Option SearchedMap) : RRes (Option Variable × Bool) :=
  let s0 := searched.getD []
  if searchedHas s0 name targetId then
    if isExportAllSearch then ⟨[], searched, .ok (none, false)⟩
    else ⟨[], searched, .error (.circularReexport name targetId)⟩
  else
    let s1 := s0 ++ [(name, targetId)]
    let out := fun (s : Option SearchedMap) =>
      if searched.isSome then s else none
    match fuel with
    | 0 => ⟨[], out (some s1), .error .outOfFuel⟩
    | f + 1 =>
      match alookup g.modulesById targetId with
      | none => ⟨[], out (some s1), .error (.missingModule targetId)⟩
      | some (.externalMod _) =>
        -- Modelled from the spec (ExternalModule is not under src):
        -- an external module returns its external variable for any
        -- requested name, without warnings or errors.
        ⟨[], out (some s1), .ok (some (.externalVar targetId name), false)⟩
      | some (.internal md) =>
        let r := moduleGetVariableForExportName g f targetId md name
          isExportAllSearch false (some s1)
        ⟨r.ws, out r.searched, r.val⟩

/-- Module.getVariableForExportName: star names, re-export
descriptions, direct exports, the onlyExplicit cut, the export *
probe, synthetic named exports, and missing-export shims, in source
order.  Side-effect bookkeeping (importerForSideEffects recording and
setAlternativeExporterIfCyclic) and the namespaceReexportsByName and
syntheticExports caches are write-only or recomputable and are not
modelled; the shim registration mutation is likewise reflected only in
the returned value and warning. -/
def moduleGetVariableForExportName (g : Graph) (fuel : Nat)
    (mId : String) (md : ModuleData) (name : String)
    (isExportAllSearch onlyExplicit : Bool)
    (searched : Option SearchedMap) : RRes (Option Variable × Bool) :=
  match fuel with
  | 0 => ⟨[], searched, .error .outOfFuel⟩
  | f + 1 =>
    if firstCharIsStar name then
      if name.length == 1 then ⟨[], searched, .ok (some (.namespaceVar mId), false)⟩
      else
        let sub := strDrop1 name
        match alookup g.modulesById sub with
        | none => ⟨[], searched, .error (.missingModule sub)⟩
        | some (.externalMod _) =>
          ⟨[], searched, .ok (some (.externalVar sub "*"), false)⟩
        | some (.internal md') =>
          let r := moduleGetVariableForExportName g f sub md' "*" false false none
          ⟨r.ws, searched, r.val⟩
    else
      match alookup md.reexportDescriptions name with
      | some rd =>
        let r := getVariableForExportNameRecursive g f rd.moduleId rd.localName
          false searched
        match r.val with
        | .error e => ⟨r.ws, r.searched, .error e⟩
        | .ok (none, _) =>
          ⟨r.ws, r.searched, .error (.missingExport rd.localName mId rd.moduleId)⟩
        | .ok (some v, _) => ⟨r.ws, r.searched, .ok (some v, false)⟩
      | none =>
        match alookup md.exports name with
        | some .missingExportShim => ⟨[], searched, .ok (some (.shimVar mId), false)⟩
        | some (.explicitLocal localName) =>
          let t := moduleTraceVariable g f mId md localName
          match t.2 with
          | .error e => ⟨t.1, searched, .error e⟩
          | .ok vOpt => ⟨t.1, searched, .ok (vOpt, false)⟩
        | none =>
          if onlyExplicit then ⟨[], searched, .ok (none, false)⟩
          else
            if name != "default" then
              let r := getVariableFromNamespaceReexports g f mId md name searched
              match r.val with
              | .error e => ⟨r.ws, r.searched, .error e⟩
              | .ok (some v, flag) => ⟨r.ws, r.searched, .ok (some v, flag)⟩
              | .ok (none, _) =>
                moduleGetVariableForExportNameTail g f mId md name
                  isExportAllSearch r.ws r.searched
            else
              moduleGetVariableForExportNameTail g f mId md name
                isExportAllSearch [] searched

/-- The tail of Module.getVariableForExportName after the export *
probe found nothing: synthetic named exports, then shims. -/
def moduleGetVariableForExportNameTail (g : Graph) (fuel : Nat)
    (mId : String) (md : ModuleData) (name : String)
    (isExportAllSearch : Bool) (ws : List Warning)
    (searched : Option SearchedMap) : RRes (Option Variable × Bool) :=
  match fuel with
  | 0 => ⟨ws, searched, .error .outOfFuel⟩
  | f + 1 =>
    if md.syntheticNamedExports.truthy then
      let r := getSyntheticNamespace g f mId md
      match r.2 with
      | .error e => ⟨ws ++ r.1, searched, .error e⟩
      | .ok base =>
        ⟨ws ++ r.1, searched, .ok (some (.syntheticVar mId name base), false)⟩
    else
      if !isExportAllSearch && g.options.shimMissingExports then
        ⟨ws ++ [.shimmedExport mId name], searched, .ok (some (.shimVar mId), false)⟩
      else ⟨ws, searched, .ok (none, false)⟩

/-- Module.getSyntheticNamespace: resolves the fallback export (the
named synthetic export or default) with onlyExplicit set; a null
result raises SYNTHETIC_NAMED_EXPORTS_NEED_NAMESPACE_EXPORT.  The
lazy null/undefined caching dance is recomputation-equivalent and not
modelled. -/
def getSyntheticNamespace (g : Graph) (fuel : Nat) (mId : String)
    (md : ModuleData) : List Warning × Except RErr Variable :=
  match fuel with
  | 0 => ([], .error .outOfFuel)
  | f + 1 =>
    let fallback :=
      match md.syntheticNamedExports with
      | .synNamed s => s
      | _ => "default"
    let r := moduleGetVariableForExportName g f mId md fallback false true none
    match r.val with
    | .error e => (r.ws, .error e)
    | .ok (some v, _) => (r.ws, .ok v)
    | .ok (none, _) =>
      (r.ws, .error (.syntheticNamedExportsNeedNamespaceExport mId))

/-- Module.traceVariable: scope lookup, then the import descriptions,
treating * on an internal exporter as its namespace; a missing
imported export raises MISSING_EXPORT.  The importerForSideEffects
argument only feeds write-only side-effect bookkeeping and is not
modelled. -/
def moduleTraceVariable (g : Graph) (fuel : Nat) (mId : String)
    (md : ModuleData) (name : String) :
    List Warning × Except RErr (Option Variable) :=
  match fuel with
  | 0 => ([], .error .outOfFuel)
  | f + 1 =>
    if name ∈ md.scopeVariables then ([], .ok (some (.localVar mId name)))
    else
      match alookup md.importDescriptions name with
      | none => ([], .ok none)
      | some idesc =>
        match alookup g.modulesById idesc.moduleId with
        | none => ([], .error (.missingModule idesc.moduleId))
        | some (.externalMod _) =>
          -- Modelled from the spec (ExternalModule is not under src):
          -- the external exporter returns its external variable.
          ([], .ok (some (.externalVar idesc.moduleId idesc.name)))
        | some (.internal md') =>
          if idesc.name == "*" then ([], .ok (some (.namespaceVar idesc.moduleId)))
          else
            let r := moduleGetVariableForExportName g f idesc.moduleId md'
              idesc.name false false none
            match r.val with
            | .error e => (r.ws, .error e)
            | .ok (none, _) =>
              (r.ws, .error (.missingExport idesc.name mId idesc.moduleId))
            | .ok (some v, _) => (r.ws, .ok (some v))

/-- Module.getVariableFromNamespaceReexports: probes the export *
target modules in order, classifying each result, then applies the
tie-break on the collected declarations. -/
def getVariableFromNamespaceReexports (g : Graph) (fuel : Nat)
    (mId : String) (md : ModuleData) (name : String)
    (searched : Option SearchedMap) : RRes (Option Variable × Bool) :=
  match fuel with
  | 0 => ⟨[], searched, .error .outOfFuel⟩
  | f + 1 =>
    let r := collectNamespaceReexports g f name md.exportAllModules searched
      none [] []
    match r.val with
    | .error e => ⟨r.ws, r.searched, .error e⟩
    | .ok (syn, ints, exts) =>
      let tb := namespaceReexportTieBreak mId name syn ints exts
      ⟨r.ws ++ tb.1, r.searched, .ok tb.2⟩

/-- The loop of getVariableFromNamespaceReexports: skips any target
whose syntheticNamedExports equals the name, probes the rest with an
export * search, and sorts the results into the synthetic, internal
and external accumulators exactly as the source does. -/
def collectNamespaceReexports (g : Graph) (fuel : Nat) (name : String)
    (mods : List String) (searched : Option SearchedMap)
    (syn : Option Variable) (ints : List (Variable × String))
    (exts : List (Option Variable)) :
    RRes (Option Variable × List (Variable × String) × List (Option Variable)) :=
  match fuel with
  | 0 => ⟨[], searched, .error .outOfFuel⟩
  | f + 1 =>
    match mods with
    | [] => ⟨[], searched, .ok (syn, ints, exts)⟩
    | pm :: rest =>
      match alookup g.modulesById pm with
      | none => ⟨[], searched, .error (.missingModule pm)⟩
      | some entry =>
        if entry.synNamed.eqName name then
          collectNamespaceReexports g f name rest searched syn ints exts
        else
          let r := getVariableForExportNameRecursive g f pm name true searched
          match r.val with
          | .error e => ⟨r.ws, r.searched, .error e⟩
          | .ok (vOpt, indirectExternal) =>
            if entry.isExternal || indirectExternal then
              let r2 := collectNamespaceReexports g f name rest r.searched
                syn ints (listSetAdd exts vOpt)
              ⟨r.ws ++ r2.ws, r2.searched, r2.val⟩
            else
              match vOpt with
              | some v =>
                if v.isSynthetic then
                  let r2 := collectNamespaceReexports g f name rest r.searched
                    (if syn.isSome then syn else some v) ints exts
                  ⟨r.ws ++ r2.ws, r2.searched, r2.val⟩
                else
                  let r2 := collectNamespaceReexports g f name rest r.searched
                    syn (mapSet ints v pm) exts
                  ⟨r.ws ++ r2.ws, r2.searched, r2.val⟩
              | none =>
                let r2 := collectNamespaceReexports g f name rest r.searched
                  syn ints exts
                ⟨r.ws ++ r2.ws, r2.searched, r2.val⟩

end

/-- Module.getExports: the keys of the direct exports table. -/
def moduleGetExports (md : ModuleData) : List String :=
  md.exports.map (fun p => p.1)

/-- Module.getReexports: the re-export description keys plus, per
export * target, the star-sentinel name of an external target or the
non-default re-exports and exports of an internal one.  The
transitiveReexports in-progress sentinel that cuts circular
export * chains is modelled by the visited list. -/
def moduleGetReexports (g : Graph) : Nat → List String → String → List String
  | 0, _, _ => []
  | fuel + 1, visited, mId =>
    if mId ∈ visited then []
    else
      match alookup g.modulesById mId with
      | none => []
      | some (.externalMod _) => []
      | some (.internal md) =>
        let base := (md.reexportDescriptions.map (fun p => p.1)).foldl listSetAdd []
        md.exportAllModules.foldl (fun acc dep =>
          match alookup g.modulesById dep with
          | none => acc
          | some (.externalMod _) => listSetAdd acc ("*" ++ dep)
          | some (.internal depMd) =>
            (moduleGetReexports g fuel (mId :: visited) dep
                ++ moduleGetExports depMd).foldl
              (fun a n => if n = "default" then a else listSetAdd a n) acc) base

/-- Modelled from the spec (Program.ts is not under src): the program
node has effects when some included top-level statement has effects. -/
def programHasEffects (body : List StatementInfo) : Bool :=
  body.any (fun st => st.included && st.hasEffects)

/-- Module.hasEffects: no-treeshake modules always have effects;
otherwise the included program is asked with a fresh effects context. -/
def moduleHasEffects (md : ModuleData) : Bool :=
  md.moduleSideEffects == .noTreeshake
    || (md.astIncluded && programHasEffects md.body)

/-- Whether a graph module has effects, as consulted by the relevant
dependency DFS (only internal modules are ever asked). -/
def ModuleEntry.hasEffectsE : ModuleEntry → Bool
  | .internal md => moduleHasEffects md
  | .externalMod _ => false

/-- The DFS of Module.addRelevantSideEffectDependencies, with the
shared handled set and the recursion into dependency.dependencies
written as an explicit work list; returns (handled, relevant). -/
def addSideEffectDependenciesGo (g : Graph)
    (necessary alwaysChecked : List String) :
    Nat → List String → List String → List String → List String × List String
  | 0, _, handled, rel => (handled, rel)
  | _ + 1, [], handled, rel => (handled, rel)
  | fuel + 1, dep :: rest, handled, rel =>
    if dep ∈ handled then addSideEffectDependenciesGo g necessary alwaysChecked fuel rest handled rel
    else
      let handled := listSetAdd handled dep
      if dep ∈ necessary then
        addSideEffectDependenciesGo g necessary alwaysChecked fuel rest handled (listSetAdd rel dep)
      else
        match alookup g.modulesById dep with
        | none => addSideEffectDependenciesGo g necessary alwaysChecked fuel rest handled rel
        | some entry =>
          if !(entry.sideEffects.truthy || dep ∈ alwaysChecked) then
            addSideEffectDependenciesGo g necessary alwaysChecked fuel rest handled rel
          else if entry.isExternal || entry.hasEffectsE then
            addSideEffectDependenciesGo g necessary alwaysChecked fuel rest handled (listSetAdd rel dep)
          else
            addSideEffectDependenciesGo g necessary alwaysChecked fuel
              (entry.deps ++ rest) handled rel

/-- Module.getDependenciesToBeIncluded: seeds the dependency variables
with the imports, adds every export and re-export variable when the
module must keep its signature, collapses synthetic variables to their
base to find the necessary modules, then either keeps every direct
dependency (treeshaking off or no-treeshake) or runs the side-effect
DFS, and finally unions the necessary modules in.  The one-shot
relevantDependencies cache is recomputation-equivalent and not
modelled; the ExportDefault original-variable collapsing step touches
a variable kind this model never produces. -/
def getDependenciesToBeIncluded (g : Graph) (fuel : Nat) (mId : String)
    (md : ModuleData) : List Warning × Except RErr (List String) :=
  let depVars0 := md.imports.foldl listSetAdd []
  let entryCond := md.isEntry || !md.includedDynamicImporters.isEmpty
    || md.namespaceIncluded || !md.implicitlyLoadedAfter.isEmpty
  let step1 : List Warning × Except RErr (List Variable) :=
    if entryCond then
      (moduleGetReexports g fuel [] mId ++ moduleGetExports md).foldl
        (fun acc en =>
          match acc with
          | (ws, .error e) => (ws, .error e)
          | (ws, .ok vars) =>
            let r := moduleGetVariableForExportName g fuel mId md en false false none
            match r.val with
            | .error e => (ws ++ r.ws, .error e)
            | .ok (some v, _) => (ws ++ r.ws, .ok (listSetAdd vars v))
            | .ok (none, _) => (ws ++ r.ws, .ok vars)) ([], .ok depVars0)
    else ([], .ok depVars0)
  match step1 with
  | (ws, .error e) => (ws, .error e)
  | (ws, .ok depVars) =>
    let collapsed := depVars.foldl
      (fun (acc : List String × List String) v =>
        let alw := ((alookup md.sideEffectDependenciesByVariable v).getD []).foldl
          listSetAdd acc.2
        let v' := if v.isSynthetic then v.getBaseVariable else v
        (listSetAdd acc.1 v'.moduleOf, alw)) ([], [])
    let necessary := collapsed.1
    let alwaysChecked := collapsed.2
    let rel :=
      if !g.options.treeshake || md.moduleSideEffects == .noTreeshake then
        md.dependencies.foldl listSetAdd []
      else
        (addSideEffectDependenciesGo g necessary alwaysChecked fuel
          (md.dependencies ++ alwaysChecked) [] []).2
    (ws, .ok (necessary.foldl listSetAdd rel))

/-! The variable model of LocalVariable.ts.  Initializers and other
expressions are opaque ExpressionEntity values: either the shared
UNKNOWN_EXPRESSION sentinel or an entity answering the path queries
through stored functions. -/

/-- LiteralValueOrUnknown: a literal value or the UnknownValue
sentinel. -/
inductive LitValue where
  | unknown
  | lit (n : Int)
deriving DecidableEq

/-- An ExpressionEntity as seen through the capability set the local
variable forwards to: the UNKNOWN_EXPRESSION sentinel, or an entity
with an identity and stored answers for the literal, return-expression
and assignment-effect queries (the return query also sees
callOptions.withNew). -/
inductive ExpressionEntity where
  | unknownExpression
  | entity (eid : Nat) (litAtPath : List String → LitValue)
      (retAtPath : List String → Bool → ExpressionEntity)
      (assignEffectsAtPath : List String → Bool)

/-- The identity key an entity occupies in a path tracker. -/
def ExpressionEntity.trackId : ExpressionEntity → Nat
  | .unknownExpression => 0
  | .entity i _ _ _ => i + 1

/-- Modelled from the spec (Expression.ts is not under src): the
UNKNOWN_EXPRESSION sentinel reports unknown literal values. -/
def ExpressionEntity.getLit : ExpressionEntity → List String → LitValue
  | .unknownExpression, _ => .unknown
  | .entity _ lit _ _, path => lit path

/-- Modelled from the spec (Expression.ts is not under src): the
UNKNOWN_EXPRESSION sentinel returns itself when called. -/
def ExpressionEntity.getRet : ExpressionEntity → List String → Bool → ExpressionEntity
  | .unknownExpression, _, _ => .unknownExpression
  | .entity _ _ ret _, path, withNew => ret path withNew

/-- Modelled from the spec (Expression.ts is not under src):
assigning into the unknown expression is conservatively effectful. -/
def ExpressionEntity.assignEffects : ExpressionEntity → List String → Bool
  | .unknownExpression, _ => true
  | .entity _ _ _ ae, path => ae path

/-- A path tracker: the set of (path, tracked id) pairs it holds.
trackEntityAtPathAndGetIfTracked answers membership (its insertion is
write-only for the queries modelled here). -/
abbrev PathTracker := List (List String × Nat)

def trackerHas (t : PathTracker) (path : List String) (id : Nat) : Bool :=
  (path, id) ∈ t

/-- The mutable state of a LocalVariable;  vid is the identity key the
variable itself occupies in path trackers. -/
structure LocalVariable where
  vid : Nat
  moduleId : String
  varName : String
  declarations : List Nat
  init : Option ExpressionEntity
  included : Bool
  isReassigned : Bool
  additionalInitializers : Option (List ExpressionEntity)

/-- LocalVariable.markInitializersForDeoptimization: on the first call
it stashes the initializer, replaces init with UNKNOWN_EXPRESSION and
marks the variable reassigned; later calls return the stash.  Returns
the variable and the additional-initializer list the caller may push
into. -/
def LocalVariable.markInitializersForDeoptimization (v : LocalVariable) :
    LocalVariable × List ExpressionEntity :=
  match v.additionalInitializers with
  | none =>
    let addl := match v.init with
      | none => []
      | some i => [i]
    ({ v with
        additionalInitializers := some addl,
        init := some .unknownExpression,
        isReassigned := true }, addl)
  | some l => (v, l)

/-- LocalVariable.addDeclaration: records the declarator, deoptimizes
the initializers and pushes the new initializer, if any, onto the
additional-initializer list. -/
def LocalVariable.addDeclaration (v : LocalVariable) (identNode : Nat)
    (init : Option ExpressionEntity) : LocalVariable :=
  let v := { v with declarations := v.declarations ++ [identNode] }
  let r := v.markInitializersForDeoptimization
  match init with
  | none => r.1
  | some i => { r.1 with additionalInitializers := some (r.2 ++ [i]) }

/-- LocalVariable.consolidateInitializers: deoptimizes every stashed
initializer (an effect on the opaque entities, returned as the list)
and clears the stash. -/
def LocalVariable.consolidateInitializers (v : LocalVariable) :
    LocalVariable × List ExpressionEntity :=
  match v.additionalInitializers with
  | none => (v, [])
  | some l => ({ v with additionalInitializers := none }, l)

/-- LocalVariable.deoptimizePath: a reassigned or already tracked
variable returns unchanged; an empty path marks the variable
reassigned and flushes the deoptimizable-expression callbacks; deeper
paths forward to the opaque initializer.  Returns the variable and the
updated deoptimization tracker. -/
def LocalVariable.deoptimizePath (v : LocalVariable) (tracker : PathTracker)
    (path : List String) : LocalVariable × PathTracker :=
  if v.isReassigned then (v, tracker)
  else if trackerHas tracker path v.vid then (v, tracker)
  else
    let tracker := (path, v.vid) :: tracker
    if path.isEmpty then
      ({ v with isReassigned := true }, tracker)
    else (v, tracker)

/-- LocalVariable.getLiteralValueAtPath: reassigned or
initializer-less variables are unknown; a tracked (path, init) pair is
unknown; otherwise the initializer answers.  The origin registration
feeds write-only deoptimization callbacks and is not modelled. -/
def LocalVariable.getLiteralValueAtPath (v : LocalVariable)
    (path : List String) (recursionTracker : PathTracker) : LitValue :=
  if v.isReassigned then .unknown
  else
    match v.init with
    | none => .unknown
    | some init =>
      if trackerHas recursionTracker path init.trackId then .unknown
      else init.getLit path

/-- LocalVariable.getReturnExpressionWhenCalledAtPath: reassigned or
initializer-less variables return UNKNOWN_EXPRESSION; a tracked
(path, init) pair returns UNKNOWN_EXPRESSION; otherwise the
initializer answers. -/
def LocalVariable.getReturnExpressionWhenCalledAtPath (v : LocalVariable)
    (path : List String) (withNew : Bool)
    (recursionTracker : PathTracker) : ExpressionEntity :=
  if v.isReassigned then .unknownExpression
  else
    match v.init with
    | none => .unknownExpression
    | some init =>
      if trackerHas recursionTracker path init.trackId then .unknownExpression
      else init.getRet path withNew

/-- LocalVariable.hasEffectsWhenAssignedAtPath: included variables are
always effectful; an empty path on an unincluded variable is not;
reassigned variables are; otherwise the initializer is asked unless
the (path, variable) pair is already tracked in context.accessed. -/
def LocalVariable.hasEffectsWhenAssignedAtPath (v : LocalVariable)
    (path : List String) (accessed : PathTracker) : Bool :=
  if v.included then true
  else if path.isEmpty then false
  else if v.isReassigned then true
  else
    match v.init with
    | none => false
    | some init =>
      !trackerHas accessed path v.vid && init.assignEffects path

/-! The inclusion walk of LocalVariable.include over the surrounding
AST, modelled on a store of nodes carrying their included flag, node
type and parent index. -/

inductive NType where
  | program
  | expressionStatementT
  | otherT
deriving DecidableEq

structure SimpleNode where
  included : Bool
  ntype : NType
  parent : Nat
deriving DecidableEq

abbrev NodeStore := List SimpleNode

/-- Whether the node at an index is included (false off the store). -/
def nodeIncluded (s : NodeStore) (i : Nat) : Bool :=
  match s.get? i with
  | some nd => nd.included
  | none => false

def setNodeIncluded : NodeStore → Nat → NodeStore
  | [], _ => []
  | nd :: t, 0 => { nd with included := true } :: t
  | nd :: t, i + 1 => nd :: setNodeIncluded t i

/-- The ancestor walk of LocalVariable.include: starting from the
declarator parent, nodes are marked included until an already
included node or the Program is reached. -/
def includeAncestors : Nat → NodeStore → Nat → NodeStore
  | 0, s, _ => s
  | fuel + 1, s, i =>
    match s.get? i with
    | none => s
    | some nd =>
      if nd.included then s
      else
        let s' := setNodeIncluded s i
        if nd.ntype = .program then s'
        else includeAncestors fuel s' nd.parent

/-- LocalVariable.include: marks the variable included, includes each
declarator that is not yet included (modelled from the spec for the
declarator node kinds, which are not under src: include sets the
included flag), then walks and includes the ancestors up to the
Program. -/
def LocalVariable.includeOp (fuel : Nat) (v : LocalVariable)
    (store : NodeStore) : LocalVariable × NodeStore :=
  if v.included then (v, store)
  else
    let v' := { v with included := true }
    let store' := v.declarations.foldl (fun st d =>
      let st1 :=
        match st.get? d with
        | some nd => if nd.included then st else setNodeIncluded st d
        | none => st
      match st1.get? d with
      | some nd => includeAncestors fuel st1 nd.parent
      | none => st1) store
    (v', store')

/-- Modelled from the spec (traverseStaticDependencies.ts is not under
src): markModuleAndImpureDependenciesAsExecuted marks the module and,
transitively, its dependencies with truthy moduleSideEffects as
executed. -/
def markExecuted (g : Graph) : Nat → List String → List String → List String
  | 0, _, ex => ex
  | _ + 1, [], ex => ex
  | fuel + 1, m :: rest, ex =>
    if m ∈ ex then markExecuted g fuel rest ex
    else
      let ex := ex ++ [m]
      match alookup g.modulesById m with
      | none => markExecuted g fuel rest ex
      | some entry =>
        markExecuted g fuel
          ((entry.deps.filter (fun d =>
            match alookup g.modulesById d with
            | some e => e.sideEffects.truthy
            | none => false)) ++ rest) ex

/-- The state Module.includeVariable mutates: the variable, the node
store its include walks, the graph-wide needsTreeshakingPass flag and
the set of executed module ids. -/
structure IncState where
  v : LocalVariable
  nodes : NodeStore
  needsTreeshakingPass : Bool
  executed : List String

/-- Module.includeVariable: an unincluded variable is included, the
pass flag is requested, the owning module is marked executed when it
was not, and, for a foreign variable, the side-effect-owed modules
(the result of getAndExtendSideEffectModules, supplied here as a
parameter since its chase runs over variable kinds whose classes are
not under src) are marked executed too. -/
def moduleIncludeVariable (g : Graph) (fuel : Nat) (selfId : String)
    (sideEffectModules : List String) (s : IncState) : IncState :=
  if s.v.included then s
  else
    let r := LocalVariable.includeOp fuel s.v s.nodes
    let s := { s with v := r.1, nodes := r.2, needsTreeshakingPass := true }
    let s :=
      if s.v.moduleId ∈ s.executed then s
      else { s with executed := markExecuted g fuel [s.v.moduleId] s.executed }
    if s.v.moduleId ≠ selfId then
      { s with executed := sideEffectModules.foldl (fun ex m =>
          if m ∈ ex then ex else markExecuted g fuel [m] ex) s.executed }
    else s

/-! The SequenceExpression model.  The element expressions are opaque
child nodes described by their stored answers to the queries the
sequence forwards. -/

/-- An opaque child expression of a sequence: its hasEffects answer,
included flag, stored query answers, and the record of deoptimization
requests it received. -/
structure Expr where
  effects : Bool
  included : Bool
  litAtPath : List String → LitValue
  assignEffectsAtPath : List String → Bool
  callEffectsAtPath : List String → Bool → Bool
  deoptimizedPaths : List (List String)

/-- Modelled from the spec (shared/Node.ts is not under src):
shouldBeIncluded asks hasEffects under a fresh context. -/
def Expr.shouldBeIncluded (e : Expr) : Bool := e.effects

/-- Modelled from the spec (shared/Node.ts is not under src): include
sets the included flag (the opaque children are modelled as leaves). -/
def Expr.includeE (e : Expr) : Expr := { e with included := true }

/-- A deoptimizePath request arriving at an opaque child is recorded. -/
def Expr.deopt (e : Expr) (path : List String) : Expr :=
  { e with deoptimizedPaths := e.deoptimizedPaths ++ [path] }

/-- A SequenceExpression: its element expressions and included flag. -/
structure SeqExpr where
  expressions : List Expr
  included : Bool

/-- SequenceExpression.getLiteralValueAtPath forwards to the last
expression (a parsed sequence is never empty). -/
def SeqExpr.getLiteralValueAtPath (sq : SeqExpr) (path : List String) : LitValue :=
  match sq.expressions.getLast? with
  | some e => e.litAtPath path
  | none => .unknown

/-- SequenceExpression.hasEffects: some expression has effects. -/
def SeqExpr.hasEffects (sq : SeqExpr) : Bool :=
  sq.expressions.any (fun e => e.effects)

/-- SequenceExpression.hasEffectsWhenAssignedAtPath forwards to the
last expression. -/
def SeqExpr.hasEffectsWhenAssignedAtPath (sq : SeqExpr) (path : List String) : Bool :=
  match sq.expressions.getLast? with
  | some e => e.assignEffectsAtPath path
  | none => false

/-- SequenceExpression.hasEffectsWhenCalledAtPath forwards to the
last expression. -/
def SeqExpr.hasEffectsWhenCalledAtPath (sq : SeqExpr) (path : List String)
    (withNew : Bool) : Bool :=
  match sq.expressions.getLast? with
  | some e => e.callEffectsAtPath path withNew
  | none => false

/-- Updates the last element of a list. -/
def updLast {α : Type} (f : α → α) : List α → List α
  | [] => []
  | [a] => [f a]
  | a :: b :: t => a :: updLast f (b :: t)

/-- SequenceExpression.deoptimizePath forwards to the last
expression. -/
def SeqExpr.deoptimizePath (sq : SeqExpr) (path : List String) : SeqExpr :=
  { sq with expressions := updLast (fun e => e.deopt path) sq.expressions }

/-- The element loop of SequenceExpression.include: an expression is
included when inclusion is recursive, when it is the last expression
and the parent is not an ExpressionStatement, or when it should be
included by itself. -/
def seqIncludeGo (parentIsExpressionStatement recursive : Bool)
    (lastIdx : Nat) : Nat → List Expr → List Expr
  | _, [] => []
  | i, e :: t =>
    (if recursive || (i == lastIdx && !parentIsExpressionStatement)
        || e.shouldBeIncluded
     then e.includeE else e)
      :: seqIncludeGo parentIsExpressionStatement recursive lastIdx (i + 1) t

/-- SequenceExpression.include: marks the sequence included and runs
the element loop. -/
def SeqExpr.includeOp (sq : SeqExpr)
    (parentIsExpressionStatement recursive : Bool) : SeqExpr :=
  { included := true,
    expressions := seqIncludeGo parentIsExpressionStatement recursive
      (sq.expressions.length - 1) 0 sq.expressions }

/-! Shared concrete fixtures for witnesses. -/

/-- A module with every table empty, used as the base of concrete
fixtures. -/
def mdBase : ModuleData where
  exports := []
  reexportDescriptions := []
  exportAllModules := []
  syntheticNamedExports := .noSyn
  moduleSideEffects := .sideEffectsTrue
  scopeVariables := []
  importDescriptions := []
  dependencies := []
  imports := []
  sideEffectDependenciesByVariable := []
  isEntry := false
  includedDynamicImporters := []
  namespaceIncluded := false
  implicitlyLoadedAfter := []
  astIncluded := false
  body := []

/-- An empty graph with treeshaking on and shimming off. -/
def gEmpty : Graph where
  modulesById := []
  options := { treeshake := true, shimMissingExports := false }

/-! Claim theorems. -/

/-- Claim C2: when the recursive export-name resolution re-enters a
(name, module) pair already recorded in searchedNamesAndModules, an
export * probe returns null without raising, and any other search
raises CIRCULAR_REEXPORT carrying the name and the revisited module
id. -/
theorem c2_circular_reexport_reentry (g : Graph) (fuel : Nat)
    (targetId name : String) (s : SearchedMap)
    (h : searchedHas s name targetId = true) :
    getVariableForExportNameRecursive g fuel targetId name true (some s)
      = ⟨[], some s, .ok (none, false)⟩
    ∧ getVariableForExportNameRecursive g fuel targetId name false (some s)
      = ⟨[], some s, .error (.circularReexport name targetId)⟩ := by
  unfold getVariableForExportNameRecursive
  simp [h]

/-- Witness for C2 at a concrete graph and searched map. -/
theorem c2_witness :
    searchedHas [("x", "m")] "x" "m" = true
    ∧ getVariableForExportNameRecursive gEmpty 5 "m" "x" true (some [("x", "m")])
      = ⟨[], some [("x", "m")], .ok (none, false)⟩
    ∧ getVariableForExportNameRecursive gEmpty 5 "m" "x" false (some [("x", "m")])
      = ⟨[], some [("x", "m")], .error (.circularReexport "x" "m")⟩ :=
  ⟨by decide,
    (c2_circular_reexport_reentry gEmpty 5 "m" "x" [("x", "m")] (by decide)).1,
    (c2_circular_reexport_reentry gEmpty 5 "m" "x" [("x", "m")] (by decide)).2⟩

/-- Claim C6, counterexample: a module whose program node is not
included but which contains an included effectful top-level statement
has hasEffects() false, while the claim (which omits the program
inclusion conjunct) predicts true. -/
theorem c6_counterexample :
    moduleHasEffects { mdBase with
      astIncluded := false,
      moduleSideEffects := .sideEffectsTrue,
      body := [{ included := true, hasEffects := true }] } = false
    ∧ ({ mdBase with
          astIncluded := false,
          moduleSideEffects := .sideEffectsTrue,
          body := [{ included := true, hasEffects := true }]
          : ModuleData }).moduleSideEffects ≠ .noTreeshake
    ∧ ∃ st ∈ ({ mdBase with
          astIncluded := false,
          moduleSideEffects := .sideEffectsTrue,
          body := [{ included := true, hasEffects := true }]
          : ModuleData }).body, st.included = true ∧ st.hasEffects = true := by
  refine ⟨rfl, by decide, ⟨{ included := true, hasEffects := true }, ?_, rfl, rfl⟩⟩
  simp [mdBase]

/-- Claim C6 as amended: hasEffects() is true exactly when
moduleSideEffects is no-treeshake, or the program node is included and
some included top-level statement has effects under a fresh effects
context. -/
theorem c6_hasEffects_characterization (md : ModuleData) :
    moduleHasEffects md = true ↔
      md.moduleSideEffects = .noTreeshake
      ∨ (md.astIncluded = true
          ∧ ∃ st ∈ md.body, st.included = true ∧ st.hasEffects = true) := by
  unfold moduleHasEffects programHasEffects
  simp [List.any_eq_true, beq_iff_eq]

/-- Claim C8: once a local variable is reassigned, every literal-value
query returns the unknown-value sentinel and every return-expression
query returns the unknown expression, at every path, for every
tracker, regardless of the initializer. -/
theorem c8_reassigned_unknown (v : LocalVariable) (path : List String)
    (tracker : PathTracker) (withNew : Bool) (h : v.isReassigned = true) :
    v.getLiteralValueAtPath path tracker = .unknown
    ∧ v.getReturnExpressionWhenCalledAtPath path withNew tracker
        = .unknownExpression := by
  unfold LocalVariable.getLiteralValueAtPath
    LocalVariable.getReturnExpressionWhenCalledAtPath
  simp [h]

/-- A reassigned fixture variable. -/
def lvReassigned : LocalVariable where
  vid := 0
  moduleId := "m"
  varName := "x"
  declarations := []
  init := none
  included := false
  isReassigned := true
  additionalInitializers := none

/-- Witness for C8 at a concrete reassigned variable. -/
theorem c8_witness :
    lvReassigned.isReassigned = true
    ∧ lvReassigned.getLiteralValueAtPath ["p"] [] = .unknown
    ∧ lvReassigned.getReturnExpressionWhenCalledAtPath ["p"] false []
        = .unknownExpression :=
  ⟨rfl, (c8_reassigned_unknown lvReassigned ["p"] [] false rfl).1,
    (c8_reassigned_unknown lvReassigned ["p"] [] false rfl).2⟩

/-- Claim C9: assigning to an included local variable is effectful at
every path, and assigning at the empty path to an unincluded,
never-reassigned local variable is effect-free. -/
theorem c9_assigned_effects (v : LocalVariable) (path : List String)
    (accessed : PathTracker) :
    (v.included = true → v.hasEffectsWhenAssignedAtPath path accessed = true)
    ∧ (v.included = false → v.isReassigned = false →
        v.hasEffectsWhenAssignedAtPath [] accessed = false) := by
  unfold LocalVariable.hasEffectsWhenAssignedAtPath
  constructor
  · intro h
    simp [h]
  · intro h _
    simp [h]

/-- An included fixture variable. -/
def lvIncluded : LocalVariable where
  vid := 1
  moduleId := "m"
  varName := "y"
  declarations := []
  init := none
  included := true
  isReassigned := false
  additionalInitializers := none

/-- A plain unincluded, unreassigned fixture variable. -/
def lvPlain : LocalVariable where
  vid := 2
  moduleId := "m"
  varName := "z"
  declarations := []
  init := none
  included := false
  isReassigned := false
  additionalInitializers := none

/-- Witness for C9 at concrete variables. -/
theorem c9_witness :
    lvIncluded.hasEffectsWhenAssignedAtPath ["p"] [] = true
    ∧ lvPlain.hasEffectsWhenAssignedAtPath [] [] = false :=
  ⟨(c9_assigned_effects lvIncluded ["p"] []).1 rfl,
    (c9_assigned_effects lvPlain [] []).2 rfl rfl⟩

/-- Claim C10: a second declarator permanently replaces init with the
unknown expression and marks the variable reassigned, so every later
literal and return query is unknown, a later deoptimizePath is a
no-op, and consolidation or further declarations never restore the
initializer. -/
theorem c10_multi_declaration_deopt (v : LocalVariable) (identNode : Nat)
    (init0 : Option ExpressionEntity) (h : v.additionalInitializers = none) :
    (v.addDeclaration identNode init0).isReassigned = true
    ∧ (v.addDeclaration identNode init0).init = some .unknownExpression
    ∧ (∀ path tracker,
        (v.addDeclaration identNode init0).getLiteralValueAtPath path tracker
          = .unknown)
    ∧ (∀ path withNew tracker,
        (v.addDeclaration identNode init0).getReturnExpressionWhenCalledAtPath
          path withNew tracker = .unknownExpression)
    ∧ (∀ tracker path,
        (v.addDeclaration identNode init0).deoptimizePath tracker path
          = (v.addDeclaration identNode init0, tracker))
    ∧ (v.addDeclaration identNode init0).consolidateInitializers.1.isReassigned
        = true
    ∧ (v.addDeclaration identNode init0).consolidateInitializers.1.init
        = some .unknownExpression
    ∧ (∀ identNode2 init2,
        ((v.addDeclaration identNode init0).addDeclaration identNode2 init2).isReassigned
          = true
        ∧ ((v.addDeclaration identNode init0).addDeclaration identNode2 init2).init
          = some .unknownExpression) := by
  have hstep : (v.addDeclaration identNode init0).isReassigned = true
      ∧ (v.addDeclaration identNode init0).init = some .unknownExpression
      ∧ (v.addDeclaration identNode init0).additionalInitializers.isSome = true := by
    unfold LocalVariable.addDeclaration LocalVariable.markInitializersForDeoptimization
    cases init0 <;> simp [h]
  obtain ⟨h1, h2, h3⟩ := hstep
  refine ⟨h1, h2, ?_, ?_, ?_, ?_, ?_, ?_⟩
  · intro path tracker
    exact (c8_reassigned_unknown _ path tracker false h1).1
  · intro path withNew tracker
    exact (c8_reassigned_unknown _ path tracker withNew h1).2
  · intro tracker path
    unfold LocalVariable.deoptimizePath
    simp [h1]
  · unfold LocalVariable.consolidateInitializers
    rcases hadd : (v.addDeclaration identNode init0).additionalInitializers with _ | l
    · simp [hadd, h1]
    · simp [hadd, h1]
  · unfold LocalVariable.consolidateInitializers
    rcases hadd : (v.addDeclaration identNode init0).additionalInitializers with _ | l
    · simp [hadd, h2]
    · simp [hadd, h2]
  · intro identNode2 init2
    set w := v.addDeclaration identNode init0 with hw
    unfold LocalVariable.addDeclaration LocalVariable.markInitializersForDeoptimization
    rcases hadd : w.additionalInitializers with _ | l
    · rw [hadd] at h3
      simp at h3
    · cases init2 <;> simp [hadd, h1, h2]

/-- Witness for C10 at a concrete variable with one declarator. -/
theorem c10_witness :
    lvPlain.additionalInitializers = none
    ∧ (lvPlain.addDeclaration 7 none).isReassigned = true
    ∧ (lvPlain.addDeclaration 7 none).init = some .unknownExpression
    ∧ (lvPlain.addDeclaration 7 none).getLiteralValueAtPath [] [] = .unknown :=
  ⟨rfl, (c10_multi_declaration_deopt lvPlain 7 none rfl).1,
    (c10_multi_declaration_deopt lvPlain 7 none rfl).2.1,
    (c10_multi_declaration_deopt lvPlain 7 none rfl).2.2.1 [] []⟩

/-! Helper lemmas for the sequence-expression theorems. -/

theorem updLast_getElem?_of_lt {α : Type} (f : α → α) :
    ∀ (l : List α) (i : Nat), i + 1 < l.length → (updLast f l)[i]? = l[i]?
  | [], _, h => by simp at h
  | [_], i, h => by
    simp only [List.length_singleton] at h
    omega
  | _ :: b :: t, 0, _ => by simp [updLast]
  | a :: b :: t, i + 1, h => by
    simp only [updLast, List.getElem?_cons_succ]
    exact updLast_getElem?_of_lt f (b :: t) i (by simpa using h)

theorem updLast_getLast? {α : Type} (f : α → α) :
    ∀ (l : List α) (h : l ≠ []),
      (updLast f l).getLast? = some (f (l.getLast h))
  | [], h => absurd rfl h
  | [a], _ => by simp [updLast]
  | a :: b :: t, _ => by
    have htail := updLast_getLast? f (b :: t) (List.cons_ne_nil _ _)
    have h1 : updLast f (a :: b :: t) = a :: updLast f (b :: t) := rfl
    rw [h1]
    have h2 : (a :: updLast f (b :: t)).getLast? = (updLast f (b :: t)).getLast? := by
      cases t with
      | nil =>
        rw [show updLast f [b] = [f b] from rfl, List.getLast?_cons_cons]
      | cons c t' =>
        rw [show updLast f (b :: c :: t') = b :: updLast f (c :: t') from rfl,
          List.getLast?_cons_cons]
    rw [h2, htail, List.getLast_cons_cons]

theorem seqIncludeGo_getElem? (p r : Bool) (lastIdx : Nat) :
    ∀ (l : List Expr) (s i : Nat),
      (seqIncludeGo p r lastIdx s l)[i]?
        = (l[i]?).map (fun e =>
            if r || ((s + i) == lastIdx && !p) || e.shouldBeIncluded
            then e.includeE else e)
  | [], _, _ => by simp [seqIncludeGo]
  | e :: t, s, 0 => by simp [seqIncludeGo]
  | e :: t, s, i + 1 => by
    simp only [seqIncludeGo, List.getElem?_cons_succ]
    rw [seqIncludeGo_getElem? p r lastIdx t (s + 1) i]
    have : s + (i + 1) = s + 1 + i := by omega
    rw [this]

theorem seqIncludeGo_length (p r : Bool) (lastIdx : Nat) :
    ∀ (l : List Expr) (s : Nat), (seqIncludeGo p r lastIdx s l).length = l.length
  | [], _ => rfl
  | e :: t, s => by
    simp only [seqIncludeGo, List.length_cons]
    rw [seqIncludeGo_length p r lastIdx t (s + 1)]

/-- Claim C7: a sequence expression forwards getLiteralValueAtPath,
hasEffectsWhenAssignedAtPath, hasEffectsWhenCalledAtPath and
deoptimizePath to its last expression, and include (non-recursive,
parent not an ExpressionStatement) includes the last expression
unconditionally while an earlier expression ends up included exactly
when it was already included or reports effects. -/
theorem c7_sequence_forwarding (sq : SeqExpr) (path : List String)
    (withNew : Bool) (h : sq.expressions ≠ []) :
    sq.getLiteralValueAtPath path = (sq.expressions.getLast h).litAtPath path
    ∧ sq.hasEffectsWhenAssignedAtPath path
        = (sq.expressions.getLast h).assignEffectsAtPath path
    ∧ sq.hasEffectsWhenCalledAtPath path withNew
        = (sq.expressions.getLast h).callEffectsAtPath path withNew
    ∧ (sq.deoptimizePath path).included = sq.included
    ∧ (sq.deoptimizePath path).expressions.getLast?
        = some ((sq.expressions.getLast h).deopt path)
    ∧ (∀ i, i + 1 < sq.expressions.length →
        (sq.deoptimizePath path).expressions[i]? = sq.expressions[i]?)
    ∧ (sq.includeOp false false).included = true
    ∧ ((sq.includeOp false false).expressions.getLast?).map Expr.included
        = some true
    ∧ (∀ i, i + 1 < sq.expressions.length →
        ((sq.includeOp false false).expressions[i]?).map Expr.included
          = (sq.expressions[i]?).map (fun e => e.included || e.effects)) := by
  have hlast : sq.expressions.getLast? = some (sq.expressions.getLast h) :=
    List.getLast?_eq_getLast_of_ne_nil h
  have hlen : 0 < sq.expressions.length := List.length_pos.mpr h
  refine ⟨?_, ?_, ?_, rfl, ?_, ?_, rfl, ?_, ?_⟩
  · unfold SeqExpr.getLiteralValueAtPath
    rw [hlast]
  · unfold SeqExpr.hasEffectsWhenAssignedAtPath
    rw [hlast]
  · unfold SeqExpr.hasEffectsWhenCalledAtPath
    rw [hlast]
  · unfold SeqExpr.deoptimizePath
    exact updLast_getLast? _ sq.expressions h
  · intro i hi
    unfold SeqExpr.deoptimizePath
    exact updLast_getElem?_of_lt _ sq.expressions i hi
  · unfold SeqExpr.includeOp
    have hgl : (seqIncludeGo false false (sq.expressions.length - 1) 0
        sq.expressions).getLast?
        = (seqIncludeGo false false (sq.expressions.length - 1) 0
            sq.expressions)[(sq.expressions.length - 1)]? := by
      rw [List.getLast?_eq_getElem?, seqIncludeGo_length]
    rw [hgl, seqIncludeGo_getElem?]
    have hidx : sq.expressions[(sq.expressions.length - 1)]?
        = some (sq.expressions.getLast h) := by
      rw [← List.getLast?_eq_getElem?, hlast]
    rw [hidx]
    simp [Expr.includeE]
  · intro i hi
    unfold SeqExpr.includeOp
    rw [seqIncludeGo_getElem?]
    have hne : (i == sq.expressions.length - 1) = false := by
      have : i ≠ sq.expressions.length - 1 := by omega
      exact beq_eq_false_iff_ne.mpr this
    rcases hgi : sq.expressions[i]? with _ | e
    · simp
    · simp only [Option.map_some', Nat.zero_add, hne, Bool.false_and,
        Bool.and_false, Bool.false_or]
      cases he : e.effects <;>
        simp [Expr.includeE, Expr.shouldBeIncluded, he]

/-- Fixture expressions and sequence for the C7 witness. -/
def exprPure : Expr where
  effects := false
  included := false
  litAtPath := fun _ => .unknown
  assignEffectsAtPath := fun _ => false
  callEffectsAtPath := fun _ _ => false
  deoptimizedPaths := []

def exprLit2 : Expr where
  effects := true
  included := false
  litAtPath := fun _ => .lit 2
  assignEffectsAtPath := fun _ => true
  callEffectsAtPath := fun _ _ => true
  deoptimizedPaths := []

def seqFixture : SeqExpr where
  expressions := [exprPure, exprLit2]
  included := false

/-- Witness for C7 at a concrete two-element sequence. -/
theorem c7_witness :
    seqFixture.expressions ≠ []
    ∧ seqFixture.getLiteralValueAtPath [] = .lit 2
    ∧ (seqFixture.includeOp false false).included = true := by
  have h : seqFixture.expressions ≠ [] := by simp [seqFixture]
  have H := c7_sequence_forwarding seqFixture [] false h
  refine ⟨h, ?_, H.2.2.2.2.2.2.1⟩
  rw [H.1]
  rfl

/-! Helper lemmas for the export * probe theorems. -/

theorem mapSet_fst_mem {α β : Type} [DecidableEq α] :
    ∀ (l : List (α × β)) (k : α) (val : β) (p : α × β),
      p ∈ mapSet l k val → p.1 = k ∨ p ∈ l
  | [], k, val, p, hp => by
    simp [mapSet] at hp
    subst hp
    exact Or.inl rfl
  | (k', v') :: t, k, val, p, hp => by
    by_cases hk : k' = k
    · rw [mapSet, if_pos hk] at hp
      rcases List.mem_cons.mp hp with h | h
      · exact Or.inl (by rw [h, hk])
      · exact Or.inr (List.mem_cons_of_mem _ h)
    · rw [mapSet, if_neg hk] at hp
      rcases List.mem_cons.mp hp with h | h
      · exact Or.inr (by rw [h]; exact List.mem_cons_self _ _)
      · rcases mapSet_fst_mem t k val p h with h' | h'
        · exact Or.inl h'
        · exact Or.inr (List.mem_cons_of_mem _ h')

/-- Extracting the recursive-call equation from a probe-step result:
the step only prepends warnings, so the recursive call agrees with the
step on the searched map and the value. -/
theorem rres_tail_eq {α : Type} {A : List Warning} {r : RRes α}
    {ws : List Warning} {s' : Option SearchedMap} {x : α}
    (h : (⟨A ++ r.ws, r.searched, r.val⟩ : RRes α) = ⟨ws, s', .ok x⟩) :
    r = ⟨r.ws, s', .ok x⟩ := by
  rcases r with ⟨rws, rs, rv⟩
  simp only [RRes.mk.injEq] at h
  obtain ⟨-, h2, h3⟩ := h
  rw [h2, h3]

/-- The internal-declaration accumulator of the export * probe loop
never holds a synthetic variable: the loop files synthetic results in
their own slot before the internal case can fire. -/
theorem collect_internals_not_synthetic (g : Graph) (name : String) :
    ∀ (fuel : Nat) (mods : List String) (searched : Option SearchedMap)
      (syn : Option Variable) (ints : List (Variable × String))
      (exts : List (Option Variable)) (ws : List Warning)
      (s' : Option SearchedMap) (syn' : Option Variable)
      (ints' : List (Variable × String)) (exts' : List (Option Variable)),
      (∀ p ∈ ints, Variable.isSynthetic p.1 = false) →
      collectNamespaceReexports g fuel name mods searched syn ints exts
        = ⟨ws, s', .ok (syn', ints', exts')⟩ →
      ∀ p ∈ ints', Variable.isSynthetic p.1 = false := by
  intro fuel
  induction fuel with
  | zero =>
    intro mods searched syn ints exts ws s' syn' ints' exts' hints hc
    simp [collectNamespaceReexports] at hc
  | succ f ih =>
    intro mods searched syn ints exts ws s' syn' ints' exts' hints hc
    cases mods with
    | nil =>
      simp only [collectNamespaceReexports, RRes.mk.injEq, Except.ok.injEq,
        Prod.mk.injEq] at hc
      obtain ⟨-, -, -, h4, -⟩ := hc
      subst h4
      exact hints
    | cons pm rest =>
      simp only [collectNamespaceReexports] at hc
      split at hc
      · simp at hc
      · split at hc
        · exact ih rest searched syn ints exts ws s' syn' ints' exts' hints hc
        · split at hc
          · simp at hc
          · split at hc
            · exact ih rest _ syn ints _ _ s' syn' ints' exts' hints
                (rres_tail_eq hc)
            · split at hc
              · split at hc
                · exact ih rest _ _ ints _ _ s' syn' ints' exts' hints
                    (rres_tail_eq hc)
                · rename_i hvs
                  refine ih rest _ syn (mapSet ints _ pm) _ _ s' syn' ints' exts'
                    ?_ (rres_tail_eq hc)
                  intro p hp
                  rcases mapSet_fst_mem ints _ pm p hp with h' | h'
                  · rw [h']
                    exact Bool.eq_false_iff.mpr hvs
                  · exact hints p h'
              · exact ih rest _ syn ints _ _ s' syn' ints' exts' hints
                  (rres_tail_eq hc)

/-- Claim C1: for a name resolved through the export * targets, the
tie-break over the collected declarations behaves as specified: a
single distinct internal declaration is returned; several emit
NAMESPACE_CONFLICT and resolve to null; otherwise the first external
declaration is returned with the indirectExternal flag, warning
AMBIGUOUS_EXTERNAL_NAMESPACES when there are several; otherwise the
synthetic declaration, if one was found, else null. -/
theorem c1_export_star_tiebreak (g : Graph) (fuel : Nat) (mId : String)
    (md : ModuleData) (name : String) (searched : Option SearchedMap)
    (ws : List Warning) (s' : Option SearchedMap) (syn : Option Variable)
    (ints : List (Variable × String)) (exts : List (Option Variable))
    (hc : collectNamespaceReexports g fuel name md.exportAllModules searched
      none [] [] = ⟨ws, s', .ok (syn, ints, exts)⟩) :
    (∀ v m, ints = [(v, m)] →
      getVariableFromNamespaceReexports g (fuel + 1) mId md name searched
        = ⟨ws, s', .ok (some v, false)⟩)
    ∧ (2 ≤ ints.length →
      getVariableFromNamespaceReexports g (fuel + 1) mId md name searched
        = ⟨ws ++ [.namespaceConflict name mId (ints.map (fun p => p.2))], s',
            .ok (none, false)⟩)
    ∧ (∀ used erest, ints = [] → exts = used :: erest →
      getVariableFromNamespaceReexports g (fuel + 1) mId md name searched
        = ⟨ws ++ (if erest.isEmpty then []
            else [.ambiguousExternalNamespaces name mId
              (used.map Variable.moduleOf)
              (exts.map (fun d => d.map Variable.moduleOf))]), s',
            .ok (used, true)⟩)
    ∧ (ints = [] → exts = [] →
      getVariableFromNamespaceReexports g (fuel + 1) mId md name searched
        = ⟨ws, s', .ok (syn, false)⟩) := by
  refine ⟨?_, ?_, ?_, ?_⟩
  · intro v m hints
    subst hints
    simp [getVariableFromNamespaceReexports, hc, namespaceReexportTieBreak]
  · intro h2
    rcases ints with _ | ⟨⟨v, m⟩, irest⟩
    · simp at h2
    · rcases irest with _ | ⟨q, irest'⟩
      · simp at h2
      · simp [getVariableFromNamespaceReexports, hc, namespaceReexportTieBreak]
  · intro used erest h1 h2
    subst h1
    subst h2
    cases herest : erest.isEmpty <;>
      simp [getVariableFromNamespaceReexports, hc, namespaceReexportTieBreak,
        herest]
  · intro h1 h2
    subst h1
    subst h2
    cases syn <;>
      simp [getVariableFromNamespaceReexports, hc, namespaceReexportTieBreak]

/-- Fixture: module a directly exporting x, module m re-exporting
star from a. -/
def mdExportsX : ModuleData :=
  { mdBase with
      exports := [("x", .explicitLocal "x")],
      scopeVariables := ["x"] }

def mdStarFromA : ModuleData :=
  { mdBase with exportAllModules := ["a"] }

def gStar : Graph where
  modulesById := [("a", .internal mdExportsX), ("m", .internal mdStarFromA)]
  options := { treeshake := true, shimMissingExports := false }

/-- Witness for C1: one internal declaration of x found through the
star target is returned. -/
theorem c1_witness :
    collectNamespaceReexports gStar 9 "x" mdStarFromA.exportAllModules none
      none [] [] = ⟨[], none, .ok (none, [(.localVar "a" "x", "a")], [])⟩
    ∧ getVariableFromNamespaceReexports gStar 10 "m" mdStarFromA "x" none
      = ⟨[], none, .ok (some (.localVar "a" "x"), false)⟩ := by
  have hc : collectNamespaceReexports gStar 9 "x" mdStarFromA.exportAllModules
      none none [] [] = ⟨[], none, .ok (none, [(.localVar "a" "x", "a")], [])⟩ := by
    rfl
  exact ⟨hc,
    (c1_export_star_tiebreak gStar 9 "m" mdStarFromA "x" none [] none none
      [(.localVar "a" "x", "a")] [] hc).1 (.localVar "a" "x") "a" rfl⟩

/-- Claim C5: a star target whose syntheticNamedExports equals the
probed name is skipped by the probe loop, and a synthetic variable is
only ever the probe result when no internal and no external
declaration of the name was found. -/
theorem c5_synthetic_skip_and_fallback (g : Graph) (fuel : Nat)
    (name pm : String) (rest : List String) (searched : Option SearchedMap)
    (syn : Option Variable) (ints : List (Variable × String))
    (exts : List (Option Variable)) (e : ModuleEntry)
    (hlook : alookup g.modulesById pm = some e)
    (hsyn : e.synNamed.eqName name = true) :
    collectNamespaceReexports g (fuel + 1) name (pm :: rest) searched syn ints exts
      = collectNamespaceReexports g fuel name rest searched syn ints exts
    ∧ (∀ (mId : String) (md : ModuleData) (ws : List Warning)
        (s' : Option SearchedMap) (v : Variable),
        getVariableFromNamespaceReexports g (fuel + 1) mId md name searched
          = ⟨ws, s', .ok (some v, false)⟩ →
        v.isSynthetic = true →
        collectNamespaceReexports g fuel name md.exportAllModules searched
          none [] [] = ⟨ws, s', .ok (some v, [], [])⟩) := by
  constructor
  · simp [collectNamespaceReexports, hlook, hsyn]
  · intro mId md ws s' v hres hv
    simp only [getVariableFromNamespaceReexports] at hres
    rcases hcoll : collectNamespaceReexports g fuel name md.exportAllModules
        searched none [] [] with ⟨ws0, s0, val0⟩
    rw [hcoll] at hres
    rcases val0 with e0 | ⟨syn0, ints0, exts0⟩
    · simp at hres
    · simp only [RRes.mk.injEq] at hres
      obtain ⟨hws, hs, hval⟩ := hres
      have hnotsyn : ∀ p ∈ ints0, Variable.isSynthetic p.1 = false :=
        collect_internals_not_synthetic g name fuel md.exportAllModules
          searched none [] [] ws0 s0 syn0 ints0 exts0 (by intro p hp; simp at hp)
          hcoll
      rcases ints0 with _ | ⟨⟨v0, m0⟩, irest⟩
      · rcases exts0 with _ | ⟨used, erest⟩
        · rcases syn0 with _ | s0v
          · simp [namespaceReexportTieBreak] at hval
          · simp only [namespaceReexportTieBreak] at hval hws
            simp only [List.append_nil] at hws
            have hsv : s0v = v := by simpa using hval
            rw [hws, hs, hsv]
        · cases herest : erest.isEmpty <;>
            simp [namespaceReexportTieBreak, herest] at hval
      · rcases irest with _ | ⟨q, irest'⟩
        · simp only [namespaceReexportTieBreak, List.isEmpty_nil, if_true] at hval
          have hv0 : v0 = v := by simpa using hval
          have hms := hnotsyn (v0, m0) (List.mem_singleton_self _)
          rw [hv0, hv] at hms
          exact absurd hms (by simp)
        · simp [namespaceReexportTieBreak] at hval

/-- Fixture: a star target s whose syntheticNamedExports equals x, and
a star target a with syntheticNamedExports true backed by a default
export. -/
def mdSkipX : ModuleData :=
  { mdBase with syntheticNamedExports := .synNamed "x" }

def mdSynA : ModuleData :=
  { mdBase with
      syntheticNamedExports := .synTrue,
      exports := [("default", .explicitLocal "d")],
      scopeVariables := ["d"] }

def gSyn : Graph where
  modulesById := [("s", .internal mdSkipX), ("a", .internal mdSynA),
    ("m", .internal mdStarFromA)]
  options := { treeshake := true, shimMissingExports := false }

/-- Witness for C5: the synthetic-named target is skipped, and a
probe that resolves to a synthetic fallback collected no internal and
no external declarations. -/
theorem c5_witness :
    alookup gSyn.modulesById "s" = some (.internal mdSkipX)
    ∧ (ModuleEntry.internal mdSkipX).synNamed.eqName "x" = true
    ∧ collectNamespaceReexports gSyn 10 "x" ("s" :: []) none none [] []
        = collectNamespaceReexports gSyn 9 "x" [] none none [] []
    ∧ collectNamespaceReexports gSyn 9 "x" mdStarFromA.exportAllModules none
        none [] []
      = ⟨[], none, .ok (some (.syntheticVar "a" "x" (.localVar "a" "d")), [], [])⟩ := by
  have H := c5_synthetic_skip_and_fallback gSyn 9 "x" "s" [] none none [] []
    (.internal mdSkipX) rfl (by decide)
  refine ⟨rfl, by decide, H.1, ?_⟩
  exact H.2 "m" mdStarFromA [] none
    (.syntheticVar "a" "x" (.localVar "a" "d")) rfl rfl

/-! Membership lemmas for the set-like list folds. -/

theorem mem_listSetAdd_self {α : Type} [DecidableEq α] (l : List α) (a : α) :
    a ∈ listSetAdd l a := by
  unfold listSetAdd
  split
  · assumption
  · simp

theorem mem_listSetAdd_of_mem {α : Type} [DecidableEq α] {l : List α} {a : α}
    (b : α) (h : a ∈ l) : a ∈ listSetAdd l b := by
  unfold listSetAdd
  split
  · exact h
  · exact List.mem_append_left _ h

theorem mem_foldl_listSetAdd_init {α : Type} [DecidableEq α] {a : α} :
    ∀ (l : List α) (acc : List α), a ∈ acc → a ∈ l.foldl listSetAdd acc
  | [], _, h => h
  | b :: t, acc, h =>
    mem_foldl_listSetAdd_init t (listSetAdd acc b) (mem_listSetAdd_of_mem b h)

theorem mem_foldl_listSetAdd_of_mem {α : Type} [DecidableEq α] {a : α} :
    ∀ (l : List α) (acc : List α), a ∈ l → a ∈ l.foldl listSetAdd acc
  | b :: t, acc, h => by
    rcases List.mem_cons.mp h with h' | h'
    · subst h'
      exact mem_foldl_listSetAdd_init t _ (mem_listSetAdd_self acc a)
    · exact mem_foldl_listSetAdd_of_mem t (listSetAdd acc b) h'

/-- Claim C4: with treeshaking disabled or moduleSideEffects equal to
no-treeshake, every direct dependency of the module is contained in
the set getDependenciesToBeIncluded returns. -/
theorem c4_no_treeshake_dependencies (g : Graph) (fuel : Nat) (mId : String)
    (md : ModuleData) (ws : List Warning) (deps : List String)
    (h1 : g.options.treeshake = false ∨ md.moduleSideEffects = .noTreeshake)
    (h2 : getDependenciesToBeIncluded g fuel mId md = (ws, .ok deps)) :
    ∀ d ∈ md.dependencies, d ∈ deps := by
  intro d hd
  have hcond : (!g.options.treeshake
      || (md.moduleSideEffects == ModSideEffects.noTreeshake)) = true := by
    rcases h1 with h | h
    · simp [h]
    · simp [h]
  simp only [getDependenciesToBeIncluded] at h2
  split at h2
  · simp at h2
  · rw [if_pos hcond] at h2
    simp only [Prod.mk.injEq, Except.ok.injEq] at h2
    obtain ⟨-, hdeps⟩ := h2
    rw [← hdeps]
    exact mem_foldl_listSetAdd_init _ _
      (mem_foldl_listSetAdd_of_mem md.dependencies [] hd)

/-- Fixture for the C4 witness: a no-treeshake module with two
dependencies. -/
def mdNoTreeshake : ModuleData :=
  { mdBase with
      moduleSideEffects := .noTreeshake,
      dependencies := ["a", "b"] }

/-- Witness for C4 at a concrete no-treeshake module. -/
theorem c4_witness :
    (mdNoTreeshake.moduleSideEffects = ModSideEffects.noTreeshake)
    ∧ getDependenciesToBeIncluded gEmpty 3 "m" mdNoTreeshake
        = ([], .ok ["a", "b"])
    ∧ "a" ∈ ["a", "b"] ∧ "b" ∈ ["a", "b"] := by
  have heq : getDependenciesToBeIncluded gEmpty 3 "m" mdNoTreeshake
      = ([], .ok ["a", "b"]) := by rfl
  exact ⟨rfl, heq,
    c4_no_treeshake_dependencies gEmpty 3 "m" mdNoTreeshake [] ["a", "b"]
      (Or.inr rfl) heq "a" (by decide),
    c4_no_treeshake_dependencies gEmpty 3 "m" mdNoTreeshake [] ["a", "b"]
      (Or.inr rfl) heq "b" (by decide)⟩

/-! Monotonicity lemmas for the inclusion operations. -/

theorem foldl_preserves {α β : Type} (P : α → Prop) (f : α → β → α)
    (hstep : ∀ a b, P a → P (f a b)) :
    ∀ (l : List β) (a : α), P a → P (l.foldl f a)
  | [], _, h => h
  | b :: t, a, h => foldl_preserves P f hstep t (f a b) (hstep a b h)

theorem nodeIncluded_setNodeIncluded_mono :
    ∀ (s : NodeStore) (k i : Nat), nodeIncluded s i = true →
      nodeIncluded (setNodeIncluded s k) i = true
  | [], _, _, h => h
  | _ :: _, 0, 0, _ => rfl
  | _ :: _, 0, _ + 1, h => h
  | _ :: _, _ + 1, 0, h => h
  | _ :: t, k + 1, i + 1, h =>
    nodeIncluded_setNodeIncluded_mono t k i h

theorem includeAncestors_mono :
    ∀ (fuel : Nat) (s : NodeStore) (start i : Nat),
      nodeIncluded s i = true →
      nodeIncluded (includeAncestors fuel s start) i = true
  | 0, _, _, _, h => h
  | fuel + 1, s, start, i, h => by
    unfold includeAncestors
    rcases hg : s.get? start with _ | nd
    · exact h
    · by_cases hinc : nd.included = true
      · simp [hinc, h]
      · simp only [Bool.not_eq_true] at hinc
        simp only [hinc, Bool.false_eq_true, if_false]
        have h1 := nodeIncluded_setNodeIncluded_mono s start i h
        by_cases hp : nd.ntype = NType.program
        · simp [hp, h1]
        · simp only [hp, if_false]
          exact includeAncestors_mono fuel (setNodeIncluded s start) nd.parent i h1

theorem includeOp_fst_included (fuel : Nat) (v : LocalVariable)
    (store : NodeStore) :
    (LocalVariable.includeOp fuel v store).1.included = true := by
  unfold LocalVariable.includeOp
  split
  · assumption
  · rfl

theorem setNodeIncluded_get?_self :
    ∀ (s : NodeStore) (k : Nat),
      (setNodeIncluded s k).get? k
        = (s.get? k).map (fun nd => { nd with included := true })
  | [], _ => rfl
  | _ :: _, 0 => rfl
  | _ :: t, k + 1 => setNodeIncluded_get?_self t k

theorem includeOp_node_mono (fuel : Nat) (v : LocalVariable)
    (store : NodeStore) (i : Nat) (h : nodeIncluded store i = true) :
    nodeIncluded (LocalVariable.includeOp fuel v store).2 i = true := by
  unfold LocalVariable.includeOp
  split
  · exact h
  · refine foldl_preserves (fun st => nodeIncluded st i = true) _ ?_
      v.declarations store h
    intro st d hst
    dsimp only
    rcases hg : st.get? d with _ | nd
    · simp only [hg]
      exact hst
    · by_cases hinc : nd.included = true
      · simp only [hg, hinc, if_true]
        exact includeAncestors_mono fuel st nd.parent i hst
      · simp only [Bool.not_eq_true] at hinc
        simp only [hg, hinc, Bool.false_eq_true, if_false,
          setNodeIncluded_get?_self, Option.map_some']
        exact includeAncestors_mono fuel (setNodeIncluded st d) nd.parent i
          (nodeIncluded_setNodeIncluded_mono st d i hst)

theorem moduleIncludeVariable_v_included (g : Graph) (fuel : Nat)
    (selfId : String) (sems : List String) (st : IncState) :
    (moduleIncludeVariable g fuel selfId sems st).v.included
      = (st.v.included || true) := by
  unfold moduleIncludeVariable
  split
  · rename_i h
    simp [h]
  · dsimp only
    split <;> split <;>
      simp [includeOp_fst_included]

theorem moduleIncludeVariable_node_mono (g : Graph) (fuel : Nat)
    (selfId : String) (sems : List String) (st : IncState) (i : Nat)
    (h : nodeIncluded st.nodes i = true) :
    nodeIncluded (moduleIncludeVariable g fuel selfId sems st).nodes i
      = true := by
  unfold moduleIncludeVariable
  split
  · exact h
  · dsimp only
    split <;> split <;>
      simp [includeOp_node_mono _ _ _ _ h]

/-- Claim C3: the included flag is monotone under the inclusion
operations: the local-variable include and the module includeVariable
always leave the variable included and never clear an AST node flag,
deoptimizePath never touches the variable flag, and a sequence include
leaves the sequence included and never clears a child flag. -/
theorem c3_included_monotone (g : Graph) (fuel : Nat) (selfId : String)
    (sems : List String) (v : LocalVariable) (store : NodeStore)
    (nt : Bool) (ex : List String) (tracker : PathTracker)
    (path : List String) (sq : SeqExpr) (pstmt recb : Bool) (i j : Nat)
    (e : Expr) (hn : nodeIncluded store i = true)
    (hj : sq.expressions[j]? = some e) (hje : e.included = true) :
    ((LocalVariable.includeOp fuel v store).1.included = true)
    ∧ nodeIncluded (LocalVariable.includeOp fuel v store).2 i = true
    ∧ ((moduleIncludeVariable g fuel selfId sems ⟨v, store, nt, ex⟩).v.included
        = true)
    ∧ nodeIncluded
        (moduleIncludeVariable g fuel selfId sems ⟨v, store, nt, ex⟩).nodes i
        = true
    ∧ ((v.deoptimizePath tracker path).1.included = v.included)
    ∧ ((sq.includeOp pstmt recb).included = true)
    ∧ ((sq.includeOp pstmt recb).expressions[j]?).map Expr.included
        = some true := by
  refine ⟨includeOp_fst_included fuel v store,
    includeOp_node_mono fuel v store i hn, ?_,
    moduleIncludeVariable_node_mono g fuel selfId sems ⟨v, store, nt, ex⟩ i hn,
    ?_, rfl, ?_⟩
  · rw [moduleIncludeVariable_v_included]
    simp
  · unfold LocalVariable.deoptimizePath
    split
    · rfl
    · split
      · rfl
      · split <;> rfl
  · unfold SeqExpr.includeOp
    rw [seqIncludeGo_getElem?, hj]
    simp only [Option.map_some']
    split
    · simp [Expr.includeE]
    · simp [hje]

/-- Fixture store and state for the C3 witness. -/
def storeFixture : NodeStore :=
  [{ included := true, ntype := .otherT, parent := 0 }]

def exprIncluded : Expr :=
  { exprPure with included := true }

def seqIncludedFixture : SeqExpr where
  expressions := [exprIncluded]
  included := false

/-- Witness for C3 at a concrete store, variable and sequence. -/
theorem c3_witness :
    nodeIncluded storeFixture 0 = true
    ∧ seqIncludedFixture.expressions[0]? = some exprIncluded
    ∧ exprIncluded.included = true
    ∧ (LocalVariable.includeOp 3 lvPlain storeFixture).1.included = true
    ∧ nodeIncluded (LocalVariable.includeOp 3 lvPlain storeFixture).2 0 = true
    ∧ (lvPlain.deoptimizePath [] []).1.included = lvPlain.included := by
  have H := c3_included_monotone gEmpty 3 "m" [] lvPlain storeFixture false []
    [] [] seqIncludedFixture false false 0 0 exprIncluded rfl rfl rfl
  exact ⟨rfl, rfl, rfl, H.1, H.2.1, H.2.2.2.2.1⟩

end Rollup
